import Mathlib

/-!
Shallow embedding of the real-time collaboration engine of
`app/websockets.py` (ConnectionManager, CollaborationManager, ChatManager,
and the WebSocket message dispatcher).

Python dicts are modelled as association lists (`List (String × α)`), Python
sets as duplicate-free `List String` with insert-if-absent/discard.  Outward
effects (websocket sends, redis pushes, log lines) are collected as `Event`
values.  Exceptions are modelled with `Except String`; in particular the
CPython `RuntimeError: Set changed size during iteration` that a set raises
when mutated during iteration is modelled in the broadcast loop, because
`send_personal_message` reacts to a failed send by running `disconnect`,
which mutates the very membership set `broadcast_to_room` iterates.

The mutually recursive group send/disconnect/broadcast is embedded as a
single fuel-indexed interpreter `exec` over a small `Call` type, one case
per Python method, so that everything stays structurally recursive and
computable.  External send failures are modelled by a `failing` list: a
`send_text` to a user in that list raises.
-/

namespace GeoMinerWS

/-- One chat message as built by `ChatManager.send_message`
(id and timestamp are opaque and omitted). -/
structure ChatMsg where
  user_id : String
  message : String
  msg_type : String
deriving Repr, DecidableEq

/-- One collaboration session value, as created by
`CollaborationManager.start_collaboration_session`
(`started_at` is an opaque timestamp and omitted). -/
structure Session where
  document_id : String
  room_id : String
  started_by : String
  participants : List String
  version : Nat
deriving Repr, DecidableEq

/-- Outbound message payloads (the `type` field plus the claim-relevant
data; timestamps and opaque fields omitted). -/
inductive Payload where
  | userJoined (user : String)
  | roomInfo (room : String) (users : List String)
  | userLeft (user : String)
  | collaborationStarted (session_key document_id started_by : String)
  | cursorUpdate (user pos : String)
  | documentChange (user session_key : String) (version : Nat)
  | collaborationEnded (session_key document_id ended_by : String)
  | chatMessage (user text : String)
  | error (msg : String)
  | pong
deriving Repr, DecidableEq

/-- Observable effects: a websocket send to a user, a redis `lpush`, a log
line. -/
inductive Event where
  | sent (user : String) (p : Payload)
  | redisPush (key : String) (p : Payload)
  | log (msg : String)
deriving Repr, DecidableEq

/-- The whole mutable state of the module: the three manager objects'
fields.  `active_connections` keeps only the connected user ids (the
websocket handles are opaque); `user_sessions` keeps only the user ids that
have session metadata (the timestamps are opaque). -/
structure World where
  active_connections : List String
  user_rooms : List (String × List String)
  room_users : List (String × List String)
  user_sessions : List String
  collaboration_sessions : List (String × Session)
  cursor_positions : List (String × List (String × String))
  chat_rooms : List (String × List ChatMsg)
deriving Repr, DecidableEq

/-- Dict lookup on an association list (first matching key). -/
def lookupA {α : Type} : List (String × α) → String → Option α
  | [], _ => none
  | (k, v) :: rest, k' => if k = k' then some v else lookupA rest k'

/-- Dict assignment: replace the first binding of the key, or append. -/
def setKey {α : Type} : List (String × α) → String → α → List (String × α)
  | [], k, v => [(k, v)]
  | (k', v') :: rest, k, v =>
      if k' = k then (k, v) :: rest else (k', v') :: setKey rest k v

/-- Dict deletion of a key (first binding). -/
def delKey {α : Type} : List (String × α) → String → List (String × α)
  | [], _ => []
  | (k', v') :: rest, k => if k' = k then rest else (k', v') :: delKey rest k

/-- Python `set.add`: insert if absent. -/
def listInsert (l : List String) (x : String) : List String :=
  if x ∈ l then l else l ++ [x]

/-- Python `set.discard`: remove every occurrence. -/
def listDiscard : List String → String → List String
  | [], _ => []
  | y :: rest, x => if y = x then listDiscard rest x else y :: listDiscard rest x

/-- Current size of the set object `room_users[room]` (0 if absent). -/
def roomSize (w : World) (room : String) : Nat :=
  match lookupA w.room_users room with
  | some members => members.length
  | none => 0

/-- The calls of the mutually recursive ConnectionManager methods:
`send_personal_message`, `disconnect`, the room loop inside `disconnect`,
`broadcast_to_room`, and the iteration inside `broadcast_to_room`
(which carries the snapshot size of the set being iterated). -/
inductive Call where
  | send (u : String) (p : Payload)
  | disc (u : String)
  | discRooms (u : String) (rooms : List String)
  | bcast (room : String) (p : Payload) (ex : Option String)
  | bloop (room : String) (p : Payload) (ex : Option String)
      (snap : Nat) (elems : List String)

/-- Fuel-indexed interpreter for the mutually recursive ConnectionManager
methods.  `failing` is the set of users whose `send_text` raises. -/
def exec (failing : List String) : Nat → Call → World →
    Except String (World × List Event)
  | 0, _, _ => .error "fuel exhausted"
  | f + 1, c, w =>
    match c with
    | .send u p =>
      -- send_personal_message: only if connected; a raising send_text is
      -- caught, logged, and followed by disconnect(u).
      if u ∈ w.active_connections then
        if u ∈ failing then
          match exec failing f (.disc u) w with
          | .error e => .error e
          | .ok (w', evs) => .ok (w', .log ("Error sending message to user " ++ u) :: evs)
        else .ok (w, [.sent u p])
      else .ok (w, [])
    | .disc u =>
      -- disconnect: close + drop the connection entry, then leave every
      -- room (with a user_left broadcast each), then drop session data.
      let w1 := if u ∈ w.active_connections
        then { w with active_connections := listDiscard w.active_connections u }
        else w
      match lookupA w1.user_rooms u with
      | none => .ok ({ w1 with user_sessions := listDiscard w1.user_sessions u }, [])
      | some rooms =>
        match exec failing f (.discRooms u rooms) w1 with
        | .error e => .error e
        | .ok (w2, evs) =>
          let w3 := { w2 with user_rooms := delKey w2.user_rooms u }
          .ok ({ w3 with user_sessions := listDiscard w3.user_sessions u }, evs)
    | .discRooms u rooms =>
      match rooms with
      | [] => .ok (w, [])
      | r :: rest =>
        match lookupA w.room_users r with
        | none => exec failing f (.discRooms u rest) w
        | some members =>
          let w1 := { w with room_users := setKey w.room_users r (listDiscard members u) }
          match exec failing f (.bcast r (.userLeft u) none) w1 with
          | .error e => .error e
          | .ok (w2, evs) =>
            match exec failing f (.discRooms u rest) w2 with
            | .error e => .error e
            | .ok (w3, evs') => .ok (w3, evs ++ evs')
    | .bcast room p ex =>
      -- broadcast_to_room: iterate the room's member set.
      match lookupA w.room_users room with
      | none => .ok (w, [])
      | some members => exec failing f (.bloop room p ex members.length members) w
    | .bloop room p ex snap elems =>
      -- each __next__ on the set iterator first checks that the set's size
      -- still equals the snapshot taken when iteration started.
      if roomSize w room ≠ snap then
        .error "RuntimeError: Set changed size during iteration"
      else
        match elems with
        | [] => .ok (w, [])
        | m :: rest =>
          let step := if some m = ex then Except.ok (w, ([] : List Event))
            else exec failing f (.send m p) w
          match step with
          | .error e => .error e
          | .ok (w1, evs) =>
            match exec failing f (.bloop room p ex snap rest) w1 with
            | .error e => .error e
            | .ok (w2, evs') => .ok (w2, evs ++ evs')

/-- `ConnectionManager.send_personal_message`. -/
def sendPersonal (fuel : Nat) (failing : List String) (w : World)
    (u : String) (p : Payload) : Except String (World × List Event) :=
  exec failing fuel (.send u p) w

/-- `ConnectionManager.disconnect`. -/
def disconnect (fuel : Nat) (failing : List String) (w : World)
    (u : String) : Except String (World × List Event) :=
  exec failing fuel (.disc u) w

/-- `ConnectionManager.broadcast_to_room`. -/
def broadcastToRoom (fuel : Nat) (failing : List String) (w : World)
    (room : String) (p : Payload) (ex : Option String) :
    Except String (World × List Event) :=
  exec failing fuel (.bcast room p ex) w

/-- Value of `self.room_users.get(room_id, set())` as a list. -/
def roomMembers (w : World) (room : String) : List String :=
  (lookupA w.room_users room).getD []

/-- `ConnectionManager.connect`: accept, register the connection, add the
user to the room (creating it on first join), record session metadata,
broadcast `user_joined` excluding the new user, then unicast `room_info`. -/
def connect (fuel : Nat) (failing : List String) (w : World)
    (u room : String) : Except String (World × List Event) :=
  let w1 := { w with active_connections := listInsert w.active_connections u }
  let w2 := { w1 with user_rooms :=
                setKey w1.user_rooms u (listInsert ((lookupA w1.user_rooms u).getD []) room) }
  let w3 := { w2 with room_users :=
                setKey w2.room_users room (listInsert ((lookupA w2.room_users room).getD []) u) }
  let w4 := { w3 with user_sessions := listInsert w3.user_sessions u }
  match broadcastToRoom fuel failing w4 room (.userJoined u) (some u) with
  | .error e => .error e
  | .ok (w5, evs) =>
    match sendPersonal fuel failing w5 u (.roomInfo room (roomMembers w5 room)) with
    | .error e => .error e
    | .ok (w6, evs') => .ok (w6, evs ++ evs')

/-- `CollaborationManager.start_collaboration_session`. -/
def startCollaborationSession (fuel : Nat) (failing : List String) (w : World)
    (room doc u : String) : Except String (World × List Event) :=
  let key := room ++ ":" ++ doc
  let fresh : Session :=
    { document_id := doc, room_id := room, started_by := u,
      participants := [], version := 0 }
  let w1 := match lookupA w.collaboration_sessions key with
    | some _ => w
    | none => { w with collaboration_sessions :=
                  setKey w.collaboration_sessions key fresh }
  let w2 := match lookupA w1.collaboration_sessions key with
    | some s =>
      let s' := { s with participants := listInsert s.participants u }
      { w1 with collaboration_sessions := setKey w1.collaboration_sessions key s' }
    | none => w1
  let w3 := match lookupA w2.cursor_positions room with
    | some _ => w2
    | none => { w2 with cursor_positions := setKey w2.cursor_positions room [] }
  broadcastToRoom fuel failing w3 room (.collaborationStarted key doc u) none

/-- `CollaborationManager.update_cursor_position`: store the position
(last-write-wins), broadcast to the room excluding the author. -/
def updateCursorPosition (fuel : Nat) (failing : List String) (w : World)
    (room u pos : String) : Except String (World × List Event) :=
  let cur := (lookupA w.cursor_positions room).getD []
  let w1 := { w with cursor_positions :=
                setKey w.cursor_positions room (setKey cur u pos) }
  broadcastToRoom fuel failing w1 room (.cursorUpdate u pos) (some u)

/-- `CollaborationManager.handle_document_change`: if the payload has no
session_key (absent or falsy) or it names no active session, return
silently; otherwise increment the session's version, broadcast the change
(carrying the new version) to the room excluding the author, then push it
to redis. -/
def handleDocumentChange (fuel : Nat) (failing : List String) (w : World)
    (room u : String) (session_key : Option String) :
    Except String (World × List Event) :=
  match session_key with
  | none => .ok (w, [])
  | some key =>
    if key = "" then .ok (w, [])
    else
      match lookupA w.collaboration_sessions key with
      | none => .ok (w, [])
      | some s =>
        let s' := { s with version := s.version + 1 }
        let w1 := { w with collaboration_sessions :=
                      setKey w.collaboration_sessions key s' }
        match broadcastToRoom fuel failing w1 room
            (.documentChange u key s'.version) (some u) with
        | .error e => .error e
        | .ok (w2, evs) =>
          .ok (w2, evs ++ [.redisPush ("document_changes:" ++ key)
            (.documentChange u key s'.version)])

/-- `CollaborationManager.end_collaboration_session`: discard the user from
the participants; if they became empty, delete the session and broadcast
`collaboration_ended`. -/
def endCollaborationSession (fuel : Nat) (failing : List String) (w : World)
    (room doc u : String) : Except String (World × List Event) :=
  let key := room ++ ":" ++ doc
  match lookupA w.collaboration_sessions key with
  | none => .ok (w, [])
  | some s =>
    let parts := listDiscard s.participants u
    if parts = [] then
      let w1 := { w with collaboration_sessions :=
                    delKey w.collaboration_sessions key }
      broadcastToRoom fuel failing w1 room (.collaborationEnded key doc u) none
    else
      .ok ({ w with collaboration_sessions :=
               setKey w.collaboration_sessions key { s with participants := parts } }, [])

/-- The `[-100:]` cap on the in-memory chat log of `ChatManager.send_message`
(`if len(...) > 100: ... = ...[-100:]`). -/
def trimmedLog (msgs : List ChatMsg) : List ChatMsg :=
  if 100 < msgs.length then msgs.drop (msgs.length - 100) else msgs

/-- `ChatManager.send_message`: append to the room's in-memory log, keep
only the last 100 entries, broadcast `chat_message` to the whole room
(no exclusion), then push to redis. -/
def sendMessage (fuel : Nat) (failing : List String) (w : World)
    (room u text mtype : String) : Except String (World × List Event) :=
  let msgs := (lookupA w.chat_rooms room).getD []
  let msgs2 := trimmedLog (msgs ++ [{ user_id := u, message := text, msg_type := mtype }])
  let w1 := { w with chat_rooms := setKey w.chat_rooms room msgs2 }
  match broadcastToRoom fuel failing w1 room (.chatMessage u text) none with
  | .error e => .error e
  | .ok (w2, evs) =>
    .ok (w2, evs ++ [.redisPush ("chat_messages:" ++ room) (.chatMessage u text)])

/-- `ChatManager.get_chat_history`: return `self.chat_rooms[room_id][-limit:]`
if the room has an in-memory log, else `[]`.  Python slice semantics for a
non-negative `limit`: `-0` is `0`, so `limit = 0` yields the whole list;
otherwise the last `min limit length` entries. -/
def getChatHistory (w : World) (room : String) (limit : Nat) : List ChatMsg :=
  match lookupA w.chat_rooms room with
  | some msgs => if limit = 0 then msgs else msgs.drop (msgs.length - limit)
  | none => []

/-- A parsed inbound message, by its `type` field.  `noType` is a JSON
object without a `type` key (so `message.get("type")` yields `None`). -/
inductive InMsg where
  | chatMessage (text mtype : String)
  | cursorUpdate (pos : String)
  | documentChange (session_key : Option String)
  | startCollaboration (document_id : Option String)
  | endCollaboration (document_id : Option String)
  | ping
  | noType
  | unknown (t : String)

/-- `handle_websocket_message`: dispatch on the `type` field.  A missing
`document_id` (absent or falsy) makes start/end a no-op; a missing or
unknown `type` is logged and ignored. -/
def handleWebsocketMessage (fuel : Nat) (failing : List String) (w : World)
    (u room : String) (m : InMsg) : Except String (World × List Event) :=
  match m with
  | .chatMessage text mtype => sendMessage fuel failing w room u text mtype
  | .cursorUpdate pos => updateCursorPosition fuel failing w room u pos
  | .documentChange sk => handleDocumentChange fuel failing w room u sk
  | .startCollaboration (some doc) =>
    if doc = "" then .ok (w, [])
    else startCollaborationSession fuel failing w room doc u
  | .startCollaboration none => .ok (w, [])
  | .endCollaboration (some doc) =>
    if doc = "" then .ok (w, [])
    else endCollaborationSession fuel failing w room doc u
  | .endCollaboration none => .ok (w, [])
  | .ping => sendPersonal fuel failing w u .pong
  | .noType => .ok (w, [.log "Unknown message type: None"])
  | .unknown t => .ok (w, [.log ("Unknown message type: " ++ t)])

/-- One raw frame received by the `websocket_endpoint` loop: either text
that fails `json.loads`, or a parsed message. -/
inductive Raw where
  | malformed
  | parsed (m : InMsg)

/-- One iteration of the `websocket_endpoint` receive loop: a
`json.JSONDecodeError` is answered with an `error` event to the sender and
the loop continues; otherwise the message is dispatched. -/
def processIncoming (fuel : Nat) (failing : List String) (w : World)
    (u room : String) : Raw → Except String (World × List Event)
  | .malformed => .ok (w, [.sent u (.error "Invalid JSON format")])
  | .parsed m => handleWebsocketMessage fuel failing w u room m

/-- Iterate `handle_document_change` once per entry of `calls`, each call
made with that entry's (room, author) pair and the same session key — the
processing order of any sequence of changes on one session, submitted by
arbitrary participants from arbitrary rooms.  Each call's events are
collected separately. -/
def runChangesBy (fuel : Nat) (failing : List String) (key : String) :
    List (String × String) → World → Except String (World × List (List Event))
  | [], w => .ok (w, [])
  | (room, u) :: rest, w =>
    match handleDocumentChange fuel failing w room u (some key) with
    | .error e => .error e
    | .ok (w1, evs) =>
      match runChangesBy fuel failing key rest w1 with
      | .error e => .error e
      | .ok (w2, steps) => .ok (w2, evs :: steps)

/-- The events produced by a failure-free pass of the broadcast loop over
`elems`: one send per element that is not excluded and is connected. -/
def broadcastSends (w : World) (elems : List String) (ex : Option String)
    (p : Payload) : List Event :=
  elems.filterMap fun m =>
    if some m = ex then none
    else if m ∈ w.active_connections then some (.sent m p) else none

/-- The versions pushed to the durable log `document_changes:key` within an
event list, in order. -/
def pushedVersions (key : String) (evs : List Event) : List Nat :=
  evs.filterMap fun e =>
    match e with
    | .redisPush k (.documentChange _ _ v) =>
      if k = "document_changes:" ++ key then some v else none
    | _ => none

/-- Every `document_change` event for `key` sent to some client within
`evs` carries exactly the version `v`. -/
def sentVersionsOk (key : String) (evs : List Event) (v : Nat) : Prop :=
  ∀ e ∈ evs, ∀ x y n, e = Event.sent x (.documentChange y key n) → n = v

/-- The i-th accepted change (counting from a session at version `v`) is
durably logged with version `v + i + 1` and every client-facing
`document_change` event of that step carries that same version. -/
def stepsSpec (key : String) : List (List Event) → Nat → Prop
  | [], _ => True
  | se :: rest, v =>
    pushedVersions key se = [v + 1] ∧ sentVersionsOk key se (v + 1) ∧
      stepsSpec key rest (v + 1)

/-- All durably logged versions of a list of steps, in processing order. -/
def allPushed (key : String) : List (List Event) → List Nat
  | [] => []
  | se :: rest => pushedVersions key se ++ allPushed key rest

/-- What the ConnectionManager methods can never change: the other two
managers' state, and the set of room keys (rooms are never deleted, only
their member sets shrink). -/
def connFrame (w w' : World) : Prop :=
  w'.collaboration_sessions = w.collaboration_sessions ∧
  w'.chat_rooms = w.chat_rooms ∧
  w'.cursor_positions = w.cursor_positions ∧
  w'.room_users.map Prod.fst = w.room_users.map Prod.fst

/-- Every recorded collaboration session has at least one participant
(an invariant of all reachable states: sessions are created with their
starter as participant and deleted when the last participant ends). -/
def sessionsNE (w : World) : Prop :=
  ∀ e ∈ w.collaboration_sessions, e.2.participants ≠ []

/-- Whether the outcome of an operation delivered an `error` event to `u`. -/
def errorSentIn (r : Except String (World × List Event)) (u : String) : Bool :=
  match r with
  | .ok (_, evs) => evs.any fun e =>
      match e with
      | .sent x (.error _) => x == u
      | _ => false
  | .error _ => false

/-- The empty initial state (fresh manager objects). -/
def w0 : World := ⟨[], [], [], [], [], [], []⟩

/-- A state with user `u` connected to room `r` and a collaboration session
`r:d` whose sole participant is `u`. -/
def cw2 : World :=
  ⟨["u"], [("u", ["r"])], [("r", ["u"])], ["u"],
    [("r:d", ⟨"d", "r", "u", ["u"], 0⟩)], [("r", [])], []⟩

/-- A state with users `a` and `b` connected to room `r`. -/
def cw4 : World :=
  ⟨["a", "b"], [("a", ["r"]), ("b", ["r"])], [("r", ["a", "b"])],
    ["a", "b"], [], [], []⟩

/-- State right after `connect 20 [] w0 "u" "r"`. -/
def cw6a : World := ⟨["u"], [("u", ["r"])], [("r", ["u"])], ["u"], [], [], []⟩

/-- State right after disconnecting `u` again: the room entry for `r`
remains, with an empty member set. -/
def cw6b : World := ⟨[], [], [("r", [])], [], [], [], []⟩

/-- A state with users `u` and `v` connected to room `r` and a fresh
session `r:d` at version 0. -/
def cw1 : World :=
  ⟨["u", "v"], [("u", ["r"]), ("v", ["r"])], [("r", ["u", "v"])],
    ["u", "v"], [("r:d", ⟨"d", "r", "u", ["u"], 0⟩)], [("r", [])], []⟩

/-- A state with a connected user and no collaboration sessions. -/
def cw3 : World := ⟨["u"], [("u", ["r"])], [("r", ["u"])], ["u"], [], [], []⟩

/-- A state with a two-message chat log for room `r`. -/
def cw7 : World :=
  ⟨[], [], [], [], [], [],
    [("r", [⟨"u", "m1", "text"⟩, ⟨"u", "m2", "text"⟩])]⟩

/-- A state with a session `r:d` whose sole participant is `a`. -/
def cw9 : World :=
  ⟨["a", "b"], [("a", ["r"]), ("b", ["r"])], [("r", ["a", "b"])],
    ["a", "b"], [("r:d", ⟨"d", "r", "a", ["a"], 3⟩)], [], []⟩

/-- A state where sender `u` is in room `R` together with `x`, while the
active session `S:d` belongs to a different room `S` (inhabited by `y`). -/
def cw10 : World :=
  ⟨["u", "x", "y"], [("u", ["R"]), ("x", ["R"]), ("y", ["S"])],
    [("R", ["u", "x"]), ("S", ["y"])], ["u", "x", "y"],
    [("S:d", ⟨"d", "S", "y", ["y"], 0⟩)], [], []⟩

/-- Well-formedness of the session dict: keys are unique (it is a Python
dict) and every recorded session has at least one participant. -/
def sessionsWF (w : World) : Prop :=
  (w.collaboration_sessions.map Prod.fst).Nodup ∧
    ∀ e ∈ w.collaboration_sessions, e.2.participants ≠ []

/-! ### Association-list and set-helper lemmas -/

theorem lookupA_mem {α : Type} :
    ∀ {l : List (String × α)} {k : String} {v : α},
      lookupA l k = some v → (k, v) ∈ l := by
  intro l
  induction l with
  | nil => intro k v h; simp [lookupA] at h
  | cons e rest ih =>
    intro k v h
    obtain ⟨a, b⟩ := e
    simp only [lookupA] at h
    split at h
    · next heq =>
      injection h with h
      subst heq; subst h
      exact List.mem_cons_self _ _
    · exact List.mem_cons_of_mem _ (ih h)

theorem lookupA_setKey_self {α : Type} :
    ∀ (l : List (String × α)) (k : String) (v : α),
      lookupA (setKey l k v) k = some v := by
  intro l
  induction l with
  | nil => intro k v; simp [setKey, lookupA]
  | cons e rest ih =>
    intro k v
    obtain ⟨a, b⟩ := e
    simp only [setKey]
    split
    · simp [lookupA]
    · next hne => simp only [lookupA]; rw [if_neg hne]; exact ih k v

theorem setKey_lookup_id {α : Type} :
    ∀ {l : List (String × α)} {k : String} {v : α},
      lookupA l k = some v → setKey l k v = l := by
  intro l
  induction l with
  | nil => intro k v h; simp [lookupA] at h
  | cons e rest ih =>
    intro k v h
    obtain ⟨a, b⟩ := e
    simp only [lookupA] at h
    simp only [setKey]
    split
    · next heq =>
      rw [if_pos heq] at h
      injection h with h
      subst heq; subst h; rfl
    · next hne =>
      rw [if_neg hne] at h
      rw [ih h]

theorem map_fst_setKey {α : Type} :
    ∀ {l : List (String × α)} {k : String} (v : α),
      (lookupA l k).isSome →
      (setKey l k v).map Prod.fst = l.map Prod.fst := by
  intro l
  induction l with
  | nil => intro k v h; simp [lookupA] at h
  | cons e rest ih =>
    intro k v h
    obtain ⟨a, b⟩ := e
    simp only [lookupA] at h
    simp only [setKey]
    split
    · next heq => subst heq; simp
    · next hne =>
      rw [if_neg hne] at h
      simp only [List.map_cons]
      rw [ih v h]

theorem mem_setKey {α : Type} :
    ∀ {l : List (String × α)} {k : String} {v : α} {e : String × α},
      e ∈ setKey l k v → e ∈ l ∨ e = (k, v) := by
  intro l
  induction l with
  | nil => intro k v e h; simp [setKey] at h; right; exact h
  | cons hd rest ih =>
    intro k v e h
    obtain ⟨a, b⟩ := hd
    simp only [setKey] at h
    split at h
    · rcases List.mem_cons.mp h with h | h
      · right; exact h
      · left; exact List.mem_cons_of_mem _ h
    · rcases List.mem_cons.mp h with h | h
      · left; subst h; exact List.mem_cons_self _ _
      · rcases ih h with h | h
        · left; exact List.mem_cons_of_mem _ h
        · right; exact h

theorem mem_delKey {α : Type} :
    ∀ {l : List (String × α)} {k : String} {e : String × α},
      e ∈ delKey l k → e ∈ l := by
  intro l
  induction l with
  | nil => intro k e h; simp [delKey] at h
  | cons hd rest ih =>
    intro k e h
    obtain ⟨a, b⟩ := hd
    simp only [delKey] at h
    split at h
    · exact List.mem_cons_of_mem _ h
    · rcases List.mem_cons.mp h with h | h
      · subst h; exact List.mem_cons_self _ _
      · exact List.mem_cons_of_mem _ (ih h)

theorem listDiscard_of_not_mem :
    ∀ {l : List String} {x : String}, x ∉ l → listDiscard l x = l := by
  intro l
  induction l with
  | nil => intro x _; rfl
  | cons y rest ih =>
    intro x hx
    simp only [listDiscard]
    rw [if_neg, ih]
    · intro hm; exact hx (List.mem_cons_of_mem _ hm)
    · intro he; exact hx (he ▸ List.mem_cons_self _ _)

theorem listInsert_ne_nil (l : List String) (x : String) :
    listInsert l x ≠ [] := by
  unfold listInsert
  split
  · next h => intro hl; subst hl; simp at h
  · intro hl
    have := congrArg List.length hl
    simp at this

theorem mem_fst_of_lookupA {α : Type} {l : List (String × α)} {k : String}
    {v : α} (h : lookupA l k = some v) : k ∈ l.map Prod.fst := by
  have := lookupA_mem h
  exact List.mem_map.mpr ⟨(k, v), this, rfl⟩

/-! ### Failure-free broadcast computations -/

theorem exec_send_noFail (failing : List String) (f : Nat) (hf : 0 < f)
    (w : World) (u : String) (p : Payload) (hu : u ∉ failing) :
    exec failing f (.send u p) w =
      .ok (w, if u ∈ w.active_connections then [.sent u p] else []) := by
  match f, hf with
  | f + 1, _ =>
    simp only [exec]
    by_cases hc : u ∈ w.active_connections
    · simp [hc, hu]
    · simp [hc]

theorem exec_bloop_noFail :
    ∀ (elems : List String) (fuel : Nat) (w : World) (room : String)
      (p : Payload) (ex : Option String) (snap : Nat),
      roomSize w room = snap → elems.length < fuel →
      exec [] fuel (.bloop room p ex snap elems) w =
        .ok (w, broadcastSends w elems ex p) := by
  intro elems
  induction elems with
  | nil =>
    intro fuel w room p ex snap hs hf
    match fuel, hf with
    | f + 1, _ =>
      simp only [exec]
      rw [if_neg (by simp [hs])]
      simp [broadcastSends]
  | cons m rest ih =>
    intro fuel w room p ex snap hs hf
    match fuel, hf with
    | f + 1, hf =>
      have hrest : rest.length < f := by
        simp only [List.length_cons] at hf; omega
      have hfpos : 0 < f := by omega
      simp only [exec]
      rw [if_neg (by simp [hs])]
      by_cases hex : some m = ex
      · rw [if_pos hex]
        simp only [ih f w room p ex snap hs hrest]
        simp [broadcastSends, hex]
      · rw [if_neg hex]
        have hsend := exec_send_noFail [] f hfpos w m p (by simp)
        simp only [hsend, ih f w room p ex snap hs hrest]
        by_cases hm : m ∈ w.active_connections
        · simp [broadcastSends, hex, hm]
        · simp [broadcastSends, hex, hm]

theorem broadcastToRoom_noFail (fuel : Nat) (w : World) (room : String)
    (p : Payload) (ex : Option String)
    (hf : (roomMembers w room).length + 1 < fuel) :
    broadcastToRoom fuel [] w room p ex =
      .ok (w, broadcastSends w (roomMembers w room) ex p) := by
  match fuel, hf with
  | f + 1, hf =>
    rw [broadcastToRoom]
    simp only [exec]
    cases hm : lookupA w.room_users room with
    | none =>
      simp [roomMembers, hm, broadcastSends]
    | some members =>
      have hmem : roomMembers w room = members := by simp [roomMembers, hm]
      rw [hmem] at hf
      have hb := exec_bloop_noFail members f w room p ex members.length
        (by simp [roomSize, hm]) (by omega)
      simpa [hmem] using hb

/-! ### Frame: what send/disconnect/broadcast never change -/

theorem connFrame_refl (w : World) : connFrame w w := ⟨rfl, rfl, rfl, rfl⟩

theorem connFrame_trans {w1 w2 w3 : World}
    (h1 : connFrame w1 w2) (h2 : connFrame w2 w3) : connFrame w1 w3 := by
  obtain ⟨a1, b1, c1, d1⟩ := h1
  obtain ⟨a2, b2, c2, d2⟩ := h2
  exact ⟨a2.trans a1, b2.trans b1, c2.trans c1, d2.trans d1⟩

theorem exec_frame {failing : List String} :
    ∀ (fuel : Nat) (c : Call) (w w' : World) (evs : List Event),
      exec failing fuel c w = .ok (w', evs) → connFrame w w' := by
  intro fuel
  induction fuel with
  | zero => intro c w w' evs h; simp [exec] at h
  | succ f ih =>
    intro c w w' evs h
    cases c with
    | send u p =>
      simp only [exec] at h
      split at h
      · split at h
        · split at h
          · simp at h
          · next w2 evs2 heq =>
            simp only [Except.ok.injEq, Prod.mk.injEq] at h
            obtain ⟨hw, -⟩ := h
            exact hw ▸ ih _ _ _ _ heq
        · simp only [Except.ok.injEq, Prod.mk.injEq] at h
          obtain ⟨hw, -⟩ := h
          exact hw ▸ connFrame_refl w
      · simp only [Except.ok.injEq, Prod.mk.injEq] at h
        obtain ⟨hw, -⟩ := h
        exact hw ▸ connFrame_refl w
    | disc u =>
      simp only [exec] at h
      split at h
      · simp only [Except.ok.injEq, Prod.mk.injEq] at h
        obtain ⟨hw, -⟩ := h
        subst hw
        by_cases hc : u ∈ w.active_connections <;> simp [connFrame, hc]
      · next rooms hr =>
        split at h
        · simp at h
        · next w2 evs2 hd =>
          simp only [Except.ok.injEq, Prod.mk.injEq] at h
          obtain ⟨hw, -⟩ := h
          subst hw
          have h1 : connFrame w
              (if u ∈ w.active_connections
                then { w with active_connections := listDiscard w.active_connections u }
                else w) := by
            by_cases hc : u ∈ w.active_connections <;> simp [connFrame, hc]
          exact connFrame_trans (connFrame_trans h1 (ih _ _ _ _ hd)) ⟨rfl, rfl, rfl, rfl⟩
    | discRooms u rooms =>
      simp only [exec] at h
      split at h
      · simp only [Except.ok.injEq, Prod.mk.injEq] at h
        obtain ⟨hw, -⟩ := h
        exact hw ▸ connFrame_refl w
      · next r rest =>
        split at h
        · exact ih _ _ _ _ h
        · next members hm =>
          split at h
          · simp at h
          · next w2 evs2 hb =>
            split at h
            · simp at h
            · next w3 evs3 hd =>
              simp only [Except.ok.injEq, Prod.mk.injEq] at h
              obtain ⟨hw, -⟩ := h
              subst hw
              have h1 : connFrame w
                  { w with room_users := setKey w.room_users r (listDiscard members u) } :=
                ⟨rfl, rfl, rfl, map_fst_setKey _ (by rw [hm]; rfl)⟩
              exact connFrame_trans (connFrame_trans h1 (ih _ _ _ _ hb)) (ih _ _ _ _ hd)
    | bcast room p ex =>
      simp only [exec] at h
      split at h
      · simp only [Except.ok.injEq, Prod.mk.injEq] at h
        obtain ⟨hw, -⟩ := h
        exact hw ▸ connFrame_refl w
      · next members hm => exact ih _ _ _ _ h
    | bloop room p ex snap elems =>
      simp only [exec] at h
      split at h
      · simp at h
      · split at h
        · simp only [Except.ok.injEq, Prod.mk.injEq] at h
          obtain ⟨hw, -⟩ := h
          exact hw ▸ connFrame_refl w
        · next m rest =>
          split at h
          · simp at h
          · next w1 evs1 hstep =>
            split at h
            · simp at h
            · next w2 evs2 hb =>
              simp only [Except.ok.injEq, Prod.mk.injEq] at h
              obtain ⟨hw, -⟩ := h
              subst hw
              have h1 : connFrame w w1 := by
                by_cases hex : some m = ex
                · rw [if_pos hex] at hstep
                  simp only [Except.ok.injEq, Prod.mk.injEq] at hstep
                  obtain ⟨hw1, -⟩ := hstep
                  exact hw1 ▸ connFrame_refl w
                · rw [if_neg hex] at hstep
                  exact ih _ _ _ _ hstep
              exact connFrame_trans h1 (ih _ _ _ _ hb)

/-! ### Events of a failure-free broadcast -/

theorem mem_broadcastSends {w : World} {elems : List String} {ex : Option String}
    {p : Payload} {e : Event} (h : e ∈ broadcastSends w elems ex p) :
    ∃ x, x ∈ elems ∧ some x ≠ ex ∧ x ∈ w.active_connections ∧ e = .sent x p := by
  unfold broadcastSends at h
  obtain ⟨x, hx, hfx⟩ := List.mem_filterMap.mp h
  by_cases h1 : some x = ex
  · simp [h1] at hfx
  · by_cases h2 : x ∈ w.active_connections
    · simp [h1, h2] at hfx
      exact ⟨x, hx, h1, h2, hfx.symm⟩
    · simp [h1, h2] at hfx

theorem sent_mem_broadcastSends {w : World} {elems : List String}
    {ex : Option String} {p : Payload} {x : String} (hx : x ∈ elems)
    (h1 : some x ≠ ex) (h2 : x ∈ w.active_connections) :
    Event.sent x p ∈ broadcastSends w elems ex p := by
  unfold broadcastSends
  refine List.mem_filterMap.mpr ⟨x, hx, ?_⟩
  simp [h1, h2]

theorem pushedVersions_broadcastSends (key : String) (w : World)
    (elems : List String) (ex : Option String) (p : Payload) :
    pushedVersions key (broadcastSends w elems ex p) = [] := by
  rw [pushedVersions, List.filterMap_eq_nil_iff]
  intro e he
  obtain ⟨x, -, -, -, hx⟩ := mem_broadcastSends he
  subst hx
  rfl

/-! ### One accepted document change, and N of them in a row -/

theorem handleDocumentChange_step {fuel : Nat} {w : World} {room u key : String}
    {s : Session} (hk : key ≠ "")
    (hs : lookupA w.collaboration_sessions key = some s)
    (hf : (roomMembers w room).length + 1 < fuel) :
    handleDocumentChange fuel [] w room u (some key) =
      .ok ({ w with collaboration_sessions :=
              setKey w.collaboration_sessions key { s with version := s.version + 1 } },
        broadcastSends w (roomMembers w room) (some u)
            (.documentChange u key (s.version + 1)) ++
          [.redisPush ("document_changes:" ++ key)
            (.documentChange u key (s.version + 1))]) := by
  simp only [handleDocumentChange]
  rw [if_neg hk]
  split
  · next hm => rw [hs] at hm; cases hm
  · next s2 hm =>
    rw [hs] at hm
    injection hm with hm
    subst hm
    have hb := broadcastToRoom_noFail fuel
      { w with collaboration_sessions := setKey w.collaboration_sessions key { s with version := s.version + 1 } }
      room (.documentChange u key (s.version + 1)) (some u) hf
    simp only [hb]
    rfl

theorem runChangesBy_spec :
    ∀ (calls : List (String × String)) (w : World) (fuel : Nat)
      (key : String) (s : Session),
      key ≠ "" → lookupA w.collaboration_sessions key = some s →
      (∀ c ∈ calls, (roomMembers w c.1).length + 1 < fuel) →
      ∃ w' steps, runChangesBy fuel [] key calls w = .ok (w', steps) ∧
        steps.length = calls.length ∧
        lookupA w'.collaboration_sessions key =
          some { s with version := s.version + calls.length } ∧
        w'.room_users = w.room_users ∧
        w'.active_connections = w.active_connections ∧
        stepsSpec key steps s.version := by
  intro calls
  induction calls with
  | nil =>
    intro w fuel key s hk hs hf
    exact ⟨w, [], rfl, rfl, hs, rfl, rfl, trivial⟩
  | cons c rest ih =>
    obtain ⟨room, u⟩ := c
    intro w fuel key s hk hs hf
    have hstep := @handleDocumentChange_step fuel w room u key s hk hs
      (hf (room, u) (List.mem_cons_self _ _))
    have hs1 : lookupA ({ w with collaboration_sessions := setKey w.collaboration_sessions key { s with version := s.version + 1 } } : World).collaboration_sessions key = some { s with version := s.version + 1 } :=
      lookupA_setKey_self _ _ _
    have hf1 : ∀ c ∈ rest, (roomMembers { w with collaboration_sessions := setKey w.collaboration_sessions key { s with version := s.version + 1 } } c.1).length + 1 < fuel :=
      fun c hc => hf c (List.mem_cons_of_mem _ hc)
    obtain ⟨w', steps, hrun, hlen, hver, hroom, hact, hspec⟩ :=
      ih _ fuel key { s with version := s.version + 1 } hk hs1 hf1
    refine ⟨w', (broadcastSends w (roomMembers w room) (some u) (.documentChange u key (s.version + 1)) ++ [.redisPush ("document_changes:" ++ key) (.documentChange u key (s.version + 1))]) :: steps, ?_, ?_, ?_, ?_, ?_, ?_, ?_, ?_⟩
    · simp only [runChangesBy, hstep, hrun]
    · simp [hlen]
    · have harith : s.version + (rest.length + 1) = s.version + 1 + rest.length := by omega
      rw [List.length_cons, harith]
      exact hver
    · rw [hroom]
    · rw [hact]
    · -- the new step is durably logged with version s.version + 1
      rw [pushedVersions, List.filterMap_append, ← pushedVersions,
        pushedVersions_broadcastSends]
      simp [pushedVersions]
    · -- every client-facing document_change event of the step carries it too
      intro e he x y m hev
      rcases List.mem_append.mp he with he | he
      · obtain ⟨z, -, -, -, hz⟩ := mem_broadcastSends he
        subst hz
        injection hev with h1 h2
        injection h2 with h3 h4 h5
        omega
      · simp only [List.mem_singleton] at he
        subst he
        cases hev
    · exact hspec

theorem allPushed_of_stepsSpec {key : String} :
    ∀ (steps : List (List Event)) (v : Nat), stepsSpec key steps v →
      allPushed key steps = List.range' (v + 1) steps.length := by
  intro steps
  induction steps with
  | nil => intro v _; simp [allPushed]
  | cons se rest ih =>
    intro v hsp
    obtain ⟨hp, -, hrest⟩ := hsp
    simp only [allPushed, hp, ih _ hrest, List.length_cons]
    rw [List.range'_succ]
    rfl

/-! ### Failure-free runs of the cursor and chat operations -/

theorem updateCursorPosition_noFail {fuel : Nat} {w : World}
    {room u pos : String} (hf : (roomMembers w room).length + 1 < fuel) :
    updateCursorPosition fuel [] w room u pos =
      .ok ({ w with cursor_positions := setKey w.cursor_positions room (setKey ((lookupA w.cursor_positions room).getD []) u pos) },
        broadcastSends w (roomMembers w room) (some u) (.cursorUpdate u pos)) := by
  simp only [updateCursorPosition]
  have hb := broadcastToRoom_noFail fuel
    { w with cursor_positions := setKey w.cursor_positions room (setKey ((lookupA w.cursor_positions room).getD []) u pos) }
    room (.cursorUpdate u pos) (some u) hf
  simp only [hb]
  rfl

theorem sendMessage_noFail {fuel : Nat} {w : World}
    {room u text mtype : String} (hf : (roomMembers w room).length + 1 < fuel) :
    sendMessage fuel [] w room u text mtype =
      .ok ({ w with chat_rooms := setKey w.chat_rooms room (trimmedLog ((lookupA w.chat_rooms room).getD [] ++ [{ user_id := u, message := text, msg_type := mtype }])) },
        broadcastSends w (roomMembers w room) none (.chatMessage u text) ++
          [.redisPush ("chat_messages:" ++ room) (.chatMessage u text)]) := by
  simp only [sendMessage]
  have hb := broadcastToRoom_noFail fuel
    { w with chat_rooms := setKey w.chat_rooms room (trimmedLog ((lookupA w.chat_rooms room).getD [] ++ [{ user_id := u, message := text, msg_type := mtype }])) }
    room (.chatMessage u text) none hf
  simp only [hb]
  rfl

/-! ### The claims -/

/-- C1.  Version bijection: starting from a session at version 0 (as
`start_collaboration_session` creates it), any sequence of N accepted
`handle_document_change` calls on that session — each submitted by an
arbitrary author from an arbitrary room, in any interleaving — assigns
exactly the versions 1, …, N in processing order (those are the versions
stored to the durable change log), with no gaps and no repeats across
authors; the session's stored counter ends at N, and every broadcast
`document_change` event of the i-th change carries exactly the version i
stored with that change. -/
theorem c1_version_bijection (fuel : Nat) (w : World) (key : String)
    (calls : List (String × String)) (s : Session) (hk : key ≠ "")
    (hs : lookupA w.collaboration_sessions key = some s) (hv : s.version = 0)
    (hf : ∀ c ∈ calls, (roomMembers w c.1).length + 1 < fuel) :
    ∃ w' steps, runChangesBy fuel [] key calls w = .ok (w', steps) ∧
      steps.length = calls.length ∧
      allPushed key steps = List.range' 1 calls.length ∧
      lookupA w'.collaboration_sessions key =
        some { s with version := calls.length } ∧
      stepsSpec key steps 0 := by
  obtain ⟨w', steps, hrun, hlen, hver, -, -, hspec⟩ :=
    runChangesBy_spec calls w fuel key s hk hs hf
  rw [hv] at hspec
  refine ⟨w', steps, hrun, hlen, ?_, ?_, hspec⟩
  · have hall := allPushed_of_stepsSpec steps 0 hspec
    rw [hlen] at hall
    simpa using hall
  · rw [hv] at hver
    simpa using hver

/-- C1, witness: in a room `r` with users `u` and `v` and session `r:d`
fresh at version 0, three accepted changes submitted alternately by the
two different authors `u` and `v` are logged as versions [1, 2, 3] and the
counter ends at 3. -/
theorem c1_version_bijection_witness :
    ("r:d" : String) ≠ "" ∧
    lookupA cw1.collaboration_sessions "r:d" = some ⟨"d", "r", "u", ["u"], 0⟩ ∧
    (Session.mk "d" "r" "u" ["u"] 0).version = 0 ∧
    (∀ c ∈ [("r", "u"), ("r", "v"), ("r", "u")],
      (roomMembers cw1 c.1).length + 1 < 20) ∧
    (∃ w' steps,
      runChangesBy 20 [] "r:d" [("r", "u"), ("r", "v"), ("r", "u")] cw1 =
        .ok (w', steps) ∧
      steps.length = ([("r", "u"), ("r", "v"), ("r", "u")] : List (String × String)).length ∧
      allPushed "r:d" steps =
        List.range' 1 ([("r", "u"), ("r", "v"), ("r", "u")] : List (String × String)).length ∧
      lookupA w'.collaboration_sessions "r:d" = some ⟨"d", "r", "u", ["u"], 3⟩ ∧
      stepsSpec "r:d" steps 0) :=
  ⟨by decide, by rfl, rfl, by decide,
    c1_version_bijection 20 cw1 "r:d" [("r", "u"), ("r", "v"), ("r", "u")]
      ⟨"d", "r", "u", ["u"], 0⟩ (by decide) (by rfl) rfl (by decide)⟩

/-- C10.  `handle_document_change` never checks that the session named by
the change's `session_key` belongs to the sender's room: for a sender in
room R and an active session whose `room_id` is a different room, the
change is accepted, it increments the foreign session's version counter,
it is durably logged under that session with the new version, and it is
broadcast to R — every connected member of R other than the sender
receives the `document_change` event — while no client-facing event goes
outside R \ {sender} (in particular none to the session's own room). -/
theorem c10_foreign_session_change (fuel : Nat) (w : World)
    (room u key : String) (s : Session) (hk : key ≠ "")
    (hs : lookupA w.collaboration_sessions key = some s)
    (_hforeign : s.room_id ≠ room)
    (hf : (roomMembers w room).length + 1 < fuel) :
    ∃ evs, handleDocumentChange fuel [] w room u (some key) =
        .ok ({ w with collaboration_sessions := setKey w.collaboration_sessions key { s with version := s.version + 1 } }, evs) ∧
      pushedVersions key evs = [s.version + 1] ∧
      (∀ x, x ∈ roomMembers w room → x ≠ u → x ∈ w.active_connections →
        Event.sent x (.documentChange u key (s.version + 1)) ∈ evs) ∧
      (∀ e ∈ evs, ∀ x p, e = Event.sent x p → x ∈ roomMembers w room ∧ x ≠ u) := by
  refine ⟨_, handleDocumentChange_step hk hs hf, ?_, ?_, ?_⟩
  · rw [pushedVersions, List.filterMap_append, ← pushedVersions,
      pushedVersions_broadcastSends]
    simp [pushedVersions]
  · intro x hx hxu hxc
    refine List.mem_append.mpr (.inl (sent_mem_broadcastSends hx ?_ hxc))
    intro he
    exact hxu (Option.some.inj he)
  · intro e he x p hev
    rcases List.mem_append.mp he with he | he
    · obtain ⟨z, hz1, hz2, -, hz⟩ := mem_broadcastSends he
      subst hz
      injection hev with h1 h2
      subst h1
      refine ⟨hz1, fun hxu => hz2 ?_⟩
      rw [hxu]
    · simp only [List.mem_singleton] at he
      subst he
      cases hev

/-- C10, witness: user `u` of room `R` submits a change naming the session
`S:d` of room `S`; it is accepted, bumps that session to version 1, is
delivered to `x` (the other member of R), and reaches nobody outside
R \ {u}. -/
theorem c10_foreign_session_change_witness :
    ("S:d" : String) ≠ "" ∧
    lookupA cw10.collaboration_sessions "S:d" = some ⟨"d", "S", "y", ["y"], 0⟩ ∧
    (Session.mk "d" "S" "y" ["y"] 0).room_id ≠ "R" ∧
    (roomMembers cw10 "R").length + 1 < 20 ∧
    (∃ evs, handleDocumentChange 20 [] cw10 "R" "u" (some "S:d") =
        .ok ({ cw10 with collaboration_sessions := setKey cw10.collaboration_sessions "S:d" ⟨"d", "S", "y", ["y"], 1⟩ }, evs) ∧
      pushedVersions "S:d" evs = [1] ∧
      (∀ x, x ∈ roomMembers cw10 "R" → x ≠ "u" → x ∈ cw10.active_connections →
        Event.sent x (.documentChange "u" "S:d" 1) ∈ evs) ∧
      (∀ e ∈ evs, ∀ x p, e = Event.sent x p → x ∈ roomMembers cw10 "R" ∧ x ≠ "u")) :=
  ⟨by decide, by rfl, by decide, by decide,
    c10_foreign_session_change 20 cw10 "R" "u" "S:d" ⟨"d", "S", "y", ["y"], 0⟩
      (by decide) (by rfl) (by decide) (by decide)⟩

/-- Support: `disconnect` can never change `collaboration_sessions`
(it only touches the ConnectionManager fields). -/
theorem disconnect_preserves_collaboration_sessions {fuel : Nat}
    {failing : List String} {w w' : World} {u : String} {evs : List Event}
    (h : disconnect fuel failing w u = .ok (w', evs)) :
    w'.collaboration_sessions = w.collaboration_sessions :=
  (exec_frame fuel _ w w' evs h).1

/-- C2.  Refuted as stated (code bug): `ConnectionManager.disconnect`
removes the user from every room but never touches
`collaboration_sessions`.  Concretely: `u` is connected to room `r` and is
the sole participant of session `r:d`; after `disconnect(u)` completes,
`u` is no longer connected, yet session `r:d` still exists with `u` among
its participants — no `collaboration_ended` teardown happened. -/
theorem c2_disconnect_ignores_sessions :
    disconnect 20 [] cw2 "u" =
      .ok (⟨[], [], [("r", [])], [], [("r:d", ⟨"d", "r", "u", ["u"], 0⟩)], [("r", [])], []⟩, []) ∧
    "u" ∈ (Session.mk "d" "r" "u" ["u"] 0).participants :=
  ⟨rfl, by decide⟩

/-- C4.  Refuted as stated (code bug): when a send to one room member
fails, `send_personal_message` catches it and runs `disconnect`, which
discards that member from the very set `broadcast_to_room` is iterating;
CPython then raises `RuntimeError: Set changed size during iteration` at
the next loop step, so the remaining deliveries are aborted and the
exception propagates to the caller of `broadcast_to_room`.  Concretely:
room `r` has members `a` and `b`, and the send to `a` raises. -/
theorem c4_send_failure_aborts_broadcast :
    broadcastToRoom 20 ["a"] cw4 "r" (.chatMessage "x" "hi") none =
      .error "RuntimeError: Set changed size during iteration" := rfl

/-- C6, counterexample: starting from the empty registry, `connect u r`
creates the room entry and `disconnect u` empties it but does not delete
it — the registry afterwards records room `r` with an empty member set,
contradicting "vanishes when empty". -/
theorem c6_counterexample :
    connect 20 [] w0 "u" "r" = .ok (cw6a, [.sent "u" (.roomInfo "r" ["u"])]) ∧
    disconnect 20 [] cw6a "u" = .ok (cw6b, []) ∧
    lookupA cw6b.room_users "r" = some [] :=
  ⟨rfl, rfl, rfl⟩

/-- C6, amended: a room entry is created on the first join, but removing
the last member leaves the entry recorded with an empty member set — no
teardown path ever deletes a key from `room_users`. -/
theorem c6_room_entry_persists (fuel : Nat) (failing : List String)
    (w wc wd : World) (u room : String) (evs evsd : List Event) :
    (connect fuel failing w u room = .ok (wc, evs) →
      room ∈ wc.room_users.map Prod.fst) ∧
    (disconnect fuel failing w u = .ok (wd, evsd) →
      wd.room_users.map Prod.fst = w.room_users.map Prod.fst) := by
  constructor
  · intro h
    simp only [connect] at h
    split at h
    · simp at h
    · next w5 evs5 hb =>
      split at h
      · simp at h
      · next w6 evs6 hs =>
        simp only [Except.ok.injEq, Prod.mk.injEq] at h
        obtain ⟨hw, -⟩ := h
        subst hw
        have f1 := (exec_frame fuel _ _ _ _ hb).2.2.2
        have f2 := (exec_frame fuel _ _ _ _ hs).2.2.2
        rw [f2, f1]
        exact mem_fst_of_lookupA (lookupA_setKey_self _ room _)
  · intro h
    exact (exec_frame fuel _ w wd evsd h).2.2.2

/-- C6, witness for the amended claim at the concrete run of the
counterexample scenario. -/
theorem c6_room_entry_persists_witness :
    "r" ∈ cw6a.room_users.map Prod.fst ∧
    cw6b.room_users.map Prod.fst = cw6a.room_users.map Prod.fst :=
  ⟨(c6_room_entry_persists 20 [] w0 cw6a cw6b "u" "r"
      [.sent "u" (.roomInfo "r" ["u"])] []).1 rfl,
    (c6_room_entry_persists 20 [] cw6a cw6a cw6b "u" "r" [] []).2 rfl⟩

/-- C3, counterexample: a `document_change` naming an unknown session is
returned from without any effect — in particular no `error` event is
delivered to the caller, contradicting "rejected with a defined error
..., not silently dropped". -/
theorem c3_counterexample :
    handleDocumentChange 20 [] cw3 "r" "u" (some "nope") = .ok (cw3, []) ∧
    errorSentIn (handleDocumentChange 20 [] cw3 "r" "u" (some "nope")) "u" = false :=
  ⟨rfl, rfl⟩

/-- C3, amended: a change whose payload has no session_key (or a falsy
one) or whose session_key names no active session is silently ignored —
nothing is sent to anyone, nothing is pushed to the durable log, and the
state (sessions, version counters, rooms, chat) is completely unchanged. -/
theorem c3_invalid_change_is_silently_ignored (fuel : Nat)
    (failing : List String) (w : World) (room u : String) (sk : Option String)
    (h : ∀ key, sk = some key →
      key = "" ∨ lookupA w.collaboration_sessions key = none) :
    handleDocumentChange fuel failing w room u sk = .ok (w, []) := by
  cases sk with
  | none => rfl
  | some key =>
    rcases h key rfl with hk | hk
    · simp [handleDocumentChange, hk]
    · simp only [handleDocumentChange]
      by_cases hke : key = ""
      · rw [if_pos hke]
      · rw [if_neg hke, hk]

/-- C3, witness: the amended claim at a concrete unknown session key. -/
theorem c3_invalid_change_witness :
    handleDocumentChange 20 [] cw3 "r" "u" (some "ghost") = .ok (cw3, []) :=
  c3_invalid_change_is_silently_ignored 20 [] cw3 "r" "u" (some "ghost")
    (by
      intro key hkey
      injection hkey with hkey
      subst hkey
      right
      rfl)

/-- C7, counterexample: `get_chat_history(room, 0)` returns the ENTIRE
buffer, not at most 0 entries, because Python's `lst[-0:]` is `lst[0:]`. -/
theorem c7_counterexample :
    getChatHistory cw7 "r" 0 = [⟨"u", "m1", "text"⟩, ⟨"u", "m2", "text"⟩] ∧
    ¬ (getChatHistory cw7 "r" 0).length ≤ 0 :=
  ⟨rfl, by decide⟩

/-- C7, amended: for every positive limit, `get_chat_history` returns
exactly the most recent `min limit stored` entries of the room's in-memory
buffer in send order (so at most `limit`), the empty list for a room with
no in-memory messages, and it reads nothing but the in-memory
`chat_rooms` state (never the durable store); `limit = 0` instead returns
the whole buffer. -/
theorem c7_history_last_limit (w : World) (room : String) (limit : Nat)
    (hl : 1 ≤ limit) :
    getChatHistory w room limit =
      ((lookupA w.chat_rooms room).getD []).drop
        (((lookupA w.chat_rooms room).getD []).length - limit) ∧
    (getChatHistory w room limit).length =
      min limit ((lookupA w.chat_rooms room).getD []).length ∧
    ∀ w2 : World, w2.chat_rooms = w.chat_rooms →
      getChatHistory w2 room limit = getChatHistory w room limit := by
  have hne : limit ≠ 0 := by omega
  have h1 : getChatHistory w room limit =
      ((lookupA w.chat_rooms room).getD []).drop
        (((lookupA w.chat_rooms room).getD []).length - limit) := by
    simp only [getChatHistory]
    cases hm : lookupA w.chat_rooms room with
    | none => simp
    | some msgs => simp [hne]
  refine ⟨h1, ?_, ?_⟩
  · rw [h1, List.length_drop]
    omega
  · intro w2 h2
    simp [getChatHistory, h2]

/-- C7, witness for the amended claim at `limit = 1` on a two-message
buffer. -/
theorem c7_history_last_limit_witness :
    (1 : Nat) ≤ 1 ∧
    (getChatHistory cw7 "r" 1 =
        ((lookupA cw7.chat_rooms "r").getD []).drop
          (((lookupA cw7.chat_rooms "r").getD []).length - 1) ∧
      (getChatHistory cw7 "r" 1).length =
        min 1 ((lookupA cw7.chat_rooms "r").getD []).length ∧
      ∀ w2 : World, w2.chat_rooms = cw7.chat_rooms →
        getChatHistory w2 "r" 1 = getChatHistory cw7 "r" 1) :=
  ⟨by decide, c7_history_last_limit cw7 "r" 1 (by decide)⟩

/-- C8, counterexample: a parsed message WITHOUT a `type` field falls into
the unknown-type branch — it is logged and ignored, and no `error` event
is sent back to the sender, contradicting "unparseable or missing type —
answered with error to sender". -/
theorem c8_counterexample :
    processIncoming 20 [] cw3 "u" "r" (.parsed .noType) =
      .ok (cw3, [.log "Unknown message type: None"]) ∧
    errorSentIn (processIncoming 20 [] cw3 "u" "r" (.parsed .noType)) "u" = false :=
  ⟨rfl, rfl⟩

/-- C8, amended: an unparseable frame is answered with an `error` event to
the sender only; a parsed message with a missing or unknown `type` is
logged and ignored with no reply; in all three cases the whole state is
unchanged (no room, chat, cursor or session mutation) and the sender's
connection stays registered. -/
theorem c8_malformed_and_unknown_handling (fuel : Nat)
    (failing : List String) (w : World) (u room t : String) :
    processIncoming fuel failing w u room .malformed =
      .ok (w, [.sent u (.error "Invalid JSON format")]) ∧
    processIncoming fuel failing w u room (.parsed .noType) =
      .ok (w, [.log "Unknown message type: None"]) ∧
    processIncoming fuel failing w u room (.parsed (.unknown t)) =
      .ok (w, [.log ("Unknown message type: " ++ t)]) :=
  ⟨rfl, rfl, rfl⟩

/-- C5.  Exclusion semantics: a `cursor_update` or `document_change`
broadcast never delivers an event back to its author, while a
`chat_message` is delivered to its author whenever the author is a member
of the room (and connected). -/
theorem c5_exclusion_semantics (fuel : Nat) (w : World)
    (room u pos text mtype : String) (sk : Option String)
    (hf : (roomMembers w room).length + 1 < fuel) :
    (∀ w' evs, updateCursorPosition fuel [] w room u pos = .ok (w', evs) →
      ∀ p, Event.sent u p ∉ evs) ∧
    (∀ w' evs, handleDocumentChange fuel [] w room u sk = .ok (w', evs) →
      ∀ p, Event.sent u p ∉ evs) ∧
    (∀ w' evs, sendMessage fuel [] w room u text mtype = .ok (w', evs) →
      u ∈ roomMembers w room → u ∈ w.active_connections →
      Event.sent u (.chatMessage u text) ∈ evs) := by
  refine ⟨?_, ?_, ?_⟩
  · intro w' evs h p hmem
    rw [updateCursorPosition_noFail hf] at h
    simp only [Except.ok.injEq, Prod.mk.injEq] at h
    obtain ⟨-, hevs⟩ := h
    subst hevs
    obtain ⟨z, -, hz2, -, hz⟩ := mem_broadcastSends hmem
    injection hz with h1 h2
    exact hz2 (by rw [h1])
  · intro w' evs h p hmem
    cases sk with
    | none =>
      simp only [handleDocumentChange] at h
      simp only [Except.ok.injEq, Prod.mk.injEq] at h
      obtain ⟨-, hevs⟩ := h
      subst hevs
      simp at hmem
    | some key =>
      by_cases hk : key = ""
      · simp only [handleDocumentChange] at h
        rw [if_pos hk] at h
        simp only [Except.ok.injEq, Prod.mk.injEq] at h
        obtain ⟨-, hevs⟩ := h
        subst hevs
        simp at hmem
      · cases hlk : lookupA w.collaboration_sessions key with
        | none =>
          simp only [handleDocumentChange] at h
          rw [if_neg hk, hlk] at h
          replace h : Except.ok (w, ([] : List Event)) = Except.ok (w', evs) := h
          simp only [Except.ok.injEq, Prod.mk.injEq] at h
          obtain ⟨-, hevs⟩ := h
          subst hevs
          simp at hmem
        | some s =>
          rw [handleDocumentChange_step hk hlk hf] at h
          simp only [Except.ok.injEq, Prod.mk.injEq] at h
          obtain ⟨-, hevs⟩ := h
          subst hevs
          rcases List.mem_append.mp hmem with hm | hm
          · obtain ⟨z, -, hz2, -, hz⟩ := mem_broadcastSends hm
            injection hz with h1 h2
            exact hz2 (by rw [h1])
          · simp at hm
  · intro w' evs h hu hc
    rw [sendMessage_noFail hf] at h
    simp only [Except.ok.injEq, Prod.mk.injEq] at h
    obtain ⟨-, hevs⟩ := h
    subst hevs
    exact List.mem_append.mpr (.inl (sent_mem_broadcastSends hu (by simp) hc))

/-- C5, witness at a concrete two-member room. -/
theorem c5_exclusion_semantics_witness :
    (roomMembers cw1 "r").length + 1 < 20 ∧
    ((∀ w' evs, updateCursorPosition 20 [] cw1 "r" "u" "p" = .ok (w', evs) →
        ∀ p, Event.sent "u" p ∉ evs) ∧
      (∀ w' evs, handleDocumentChange 20 [] cw1 "r" "u" (some "r:d") = .ok (w', evs) →
        ∀ p, Event.sent "u" p ∉ evs) ∧
      (∀ w' evs, sendMessage 20 [] cw1 "r" "u" "hi" "text" = .ok (w', evs) →
        "u" ∈ roomMembers cw1 "r" → "u" ∈ cw1.active_connections →
        Event.sent "u" (.chatMessage "u" "hi") ∈ evs)) :=
  ⟨by decide, c5_exclusion_semantics 20 cw1 "r" "u" "p" "hi" "text" (some "r:d") (by decide)⟩

/-- C9.  Idempotent end: when the user is not a participant of the session
named by (room, doc) — including when that session does not exist — then
`end_collaboration_session` returns with the state completely unchanged
and no event broadcast.  The nonempty-participants hypothesis holds in
every reachable state (sessions are created with their starter as a
participant and deleted once the participants set empties; see
`sessionsWF_processIncoming`). -/
theorem c9_end_nonparticipant_noop (fuel : Nat) (failing : List String)
    (w : World) (room doc u : String)
    (hinv : ∀ e ∈ w.collaboration_sessions, e.2.participants ≠ [])
    (hnp : ∀ e ∈ w.collaboration_sessions,
      e.1 = room ++ ":" ++ doc → u ∉ e.2.participants) :
    endCollaborationSession fuel failing w room doc u = .ok (w, []) := by
  simp only [endCollaborationSession]
  split
  · rfl
  · next s hlk =>
    have hmem := lookupA_mem hlk
    have hnotin : u ∉ s.participants := hnp _ hmem rfl
    have hne : s.participants ≠ [] := hinv _ hmem
    rw [listDiscard_of_not_mem hnotin, if_neg hne,
      show ({ s with participants := s.participants } : Session) = s from rfl,
      setKey_lookup_id hlk]

/-- C9, witness: user `b` is no participant of session `r:d` (whose sole
participant is `a`); ending it for `b` changes nothing and emits
nothing. -/
theorem c9_end_nonparticipant_noop_witness :
    (∀ e ∈ cw9.collaboration_sessions, e.2.participants ≠ []) ∧
    (∀ e ∈ cw9.collaboration_sessions,
      e.1 = "r" ++ ":" ++ "d" → "b" ∉ e.2.participants) ∧
    endCollaborationSession 20 [] cw9 "r" "d" "b" = .ok (cw9, []) :=
  ⟨by decide, by decide,
    c9_end_nonparticipant_noop 20 [] cw9 "r" "d" "b" (by decide) (by decide)⟩

/-! ### The session invariant holds in every reachable state -/

theorem lookupA_eq_none_not_mem {α : Type} :
    ∀ {l : List (String × α)} {k : String},
      lookupA l k = none → k ∉ l.map Prod.fst := by
  intro l
  induction l with
  | nil => intro k _; simp
  | cons e rest ih =>
    intro k h
    obtain ⟨a, b⟩ := e
    simp only [lookupA] at h
    split at h
    · simp at h
    · next hne =>
      intro hmem
      simp only [List.map_cons, List.mem_cons] at hmem
      rcases hmem with h1 | h1
      · exact hne h1.symm
      · exact ih h h1

theorem map_fst_setKey_of_none {α : Type} :
    ∀ {l : List (String × α)} {k : String} (v : α), lookupA l k = none →
      (setKey l k v).map Prod.fst = l.map Prod.fst ++ [k] := by
  intro l
  induction l with
  | nil => intro k v _; simp [setKey]
  | cons e rest ih =>
    intro k v h
    obtain ⟨a, b⟩ := e
    simp only [lookupA] at h
    split at h
    · simp at h
    · next hne =>
      simp only [setKey]
      rw [if_neg hne]
      simp only [List.map_cons, ih v h]
      rfl

theorem nodup_setKey {α : Type} {l : List (String × α)} {k : String} (v : α)
    (h : (l.map Prod.fst).Nodup) : ((setKey l k v).map Prod.fst).Nodup := by
  cases hm : lookupA l k with
  | some v2 =>
    rw [map_fst_setKey v (by rw [hm]; rfl)]
    exact h
  | none =>
    rw [map_fst_setKey_of_none v hm, List.nodup_append]
    refine ⟨h, List.nodup_singleton k, ?_⟩
    intro a ha hk
    simp only [List.mem_singleton] at hk
    subst hk
    exact lookupA_eq_none_not_mem hm ha

theorem delKey_sublist {α : Type} :
    ∀ (l : List (String × α)) (k : String), List.Sublist (delKey l k) l := by
  intro l k
  induction l with
  | nil => simp [delKey]
  | cons e rest ih =>
    obtain ⟨a, b⟩ := e
    simp only [delKey]
    split
    · exact (List.Sublist.refl rest).cons _
    · exact ih.cons₂ _

theorem nodup_delKey {α : Type} {l : List (String × α)} {k : String}
    (h : (l.map Prod.fst).Nodup) : ((delKey l k).map Prod.fst).Nodup :=
  List.Nodup.sublist (List.Sublist.map Prod.fst (delKey_sublist l k)) h

theorem mem_setKey_nodup {α : Type} :
    ∀ {l : List (String × α)} {k : String} {v : α} {e : String × α},
      (l.map Prod.fst).Nodup → e ∈ setKey l k v →
      e = (k, v) ∨ (e ∈ l ∧ e.1 ≠ k) := by
  intro l
  induction l with
  | nil =>
    intro k v e _ h
    simp [setKey] at h
    left; exact h
  | cons hd rest ih =>
    intro k v e hnd h
    obtain ⟨a, b⟩ := hd
    simp only [List.map_cons, List.nodup_cons] at hnd
    obtain ⟨ha, hnd⟩ := hnd
    simp only [setKey] at h
    split at h
    · next heq =>
      rcases List.mem_cons.mp h with h | h
      · left; exact h
      · right
        refine ⟨List.mem_cons_of_mem _ h, fun hek => ?_⟩
        exact ha (List.mem_map.mpr ⟨e, h, by rw [hek, ← heq]⟩)
    · next hne =>
      rcases List.mem_cons.mp h with h | h
      · right
        subst h
        exact ⟨List.mem_cons_self _ _, hne⟩
      · rcases ih hnd h with h | h
        · left; exact h
        · right; exact ⟨List.mem_cons_of_mem _ h.1, h.2⟩

theorem sessionsWF_of_eq {w w' : World}
    (h : w'.collaboration_sessions = w.collaboration_sessions)
    (hw : sessionsWF w) : sessionsWF w' :=
  ⟨by rw [h]; exact hw.1, by rw [h]; exact hw.2⟩

theorem sessionsWF_of_list {w' : World} {l : List (String × Session)}
    (h : w'.collaboration_sessions = l)
    (h1 : (l.map Prod.fst).Nodup)
    (h2 : ∀ e ∈ l, e.2.participants ≠ []) : sessionsWF w' :=
  ⟨by rw [h]; exact h1, by rw [h]; exact h2⟩

theorem sendMessage_sessions_eq {fuel : Nat} {failing : List String}
    {w : World} {room u text mtype : String} {w' : World} {evs : List Event}
    (h : sendMessage fuel failing w room u text mtype = .ok (w', evs)) :
    w'.collaboration_sessions = w.collaboration_sessions := by
  simp only [sendMessage] at h
  split at h
  · simp at h
  · next w2 evs2 hb =>
    simp only [Except.ok.injEq, Prod.mk.injEq] at h
    obtain ⟨hw, -⟩ := h
    subst hw
    exact (exec_frame _ _ _ _ _ hb).1

theorem updateCursorPosition_sessions_eq {fuel : Nat} {failing : List String}
    {w : World} {room u pos : String} {w' : World} {evs : List Event}
    (h : updateCursorPosition fuel failing w room u pos = .ok (w', evs)) :
    w'.collaboration_sessions = w.collaboration_sessions := by
  simp only [updateCursorPosition] at h
  exact (exec_frame _ _ _ _ _ h).1

theorem sessionsWF_start {fuel : Nat} {failing : List String} {w : World}
    {room doc u : String} {w' : World} {evs : List Event}
    (hw : sessionsWF w)
    (h : startCollaborationSession fuel failing w room doc u = .ok (w', evs)) :
    sessionsWF w' := by
  cases hm1 : lookupA w.collaboration_sessions (room ++ ":" ++ doc) with
  | some s0 =>
    simp only [startCollaborationSession, hm1] at h
    have hfr := (exec_frame _ _ _ _ _ h).1
    cases hcur : lookupA w.cursor_positions room with
    | some c =>
      simp only [hcur] at hfr
      refine sessionsWF_of_list hfr (nodup_setKey _ hw.1) ?_
      intro e he
      rcases mem_setKey he with he | he
      · exact hw.2 e he
      · subst he
        exact listInsert_ne_nil _ _
    | none =>
      simp only [hcur] at hfr
      refine sessionsWF_of_list hfr (nodup_setKey _ hw.1) ?_
      intro e he
      rcases mem_setKey he with he | he
      · exact hw.2 e he
      · subst he
        exact listInsert_ne_nil _ _
  | none =>
    simp only [startCollaborationSession, hm1, lookupA_setKey_self] at h
    have hfr := (exec_frame _ _ _ _ _ h).1
    cases hcur : lookupA w.cursor_positions room with
    | some c =>
      simp only [hcur] at hfr
      refine sessionsWF_of_list hfr (nodup_setKey _ (nodup_setKey _ hw.1)) ?_
      intro e he
      rcases mem_setKey_nodup (nodup_setKey _ hw.1) he with he | ⟨he, hne⟩
      · subst he
        exact show listInsert [] u ≠ [] from listInsert_ne_nil _ _
      · rcases mem_setKey he with he2 | he2
        · exact hw.2 e he2
        · exact absurd (congrArg Prod.fst he2) hne
    | none =>
      simp only [hcur] at hfr
      refine sessionsWF_of_list hfr (nodup_setKey _ (nodup_setKey _ hw.1)) ?_
      intro e he
      rcases mem_setKey_nodup (nodup_setKey _ hw.1) he with he | ⟨he, hne⟩
      · subst he
        exact show listInsert [] u ≠ [] from listInsert_ne_nil _ _
      · rcases mem_setKey he with he2 | he2
        · exact hw.2 e he2
        · exact absurd (congrArg Prod.fst he2) hne

theorem sessionsWF_end {fuel : Nat} {failing : List String} {w : World}
    {room doc u : String} {w' : World} {evs : List Event}
    (hw : sessionsWF w)
    (h : endCollaborationSession fuel failing w room doc u = .ok (w', evs)) :
    sessionsWF w' := by
  simp only [endCollaborationSession] at h
  split at h
  · simp only [Except.ok.injEq, Prod.mk.injEq] at h
    obtain ⟨hweq, -⟩ := h
    subst hweq
    exact hw
  · next s hlk =>
    split at h
    · have hfr := (exec_frame _ _ _ _ _ h).1
      refine sessionsWF_of_list hfr (nodup_delKey hw.1) ?_
      intro e he
      exact hw.2 e (mem_delKey he)
    · next hne =>
      simp only [Except.ok.injEq, Prod.mk.injEq] at h
      obtain ⟨hweq, -⟩ := h
      subst hweq
      refine sessionsWF_of_list rfl (nodup_setKey _ hw.1) ?_
      intro e he
      rcases mem_setKey he with he | he
      · exact hw.2 e he
      · subst he
        exact hne

theorem sessionsWF_docChange {fuel : Nat} {failing : List String} {w : World}
    {room u : String} {sk : Option String} {w' : World} {evs : List Event}
    (hw : sessionsWF w)
    (h : handleDocumentChange fuel failing w room u sk = .ok (w', evs)) :
    sessionsWF w' := by
  cases sk with
  | none =>
    simp only [handleDocumentChange, Except.ok.injEq, Prod.mk.injEq] at h
    obtain ⟨hweq, -⟩ := h
    subst hweq
    exact hw
  | some key =>
    simp only [handleDocumentChange] at h
    by_cases hke : key = ""
    · rw [if_pos hke] at h
      simp only [Except.ok.injEq, Prod.mk.injEq] at h
      obtain ⟨hweq, -⟩ := h
      subst hweq
      exact hw
    · rw [if_neg hke] at h
      split at h
      · simp only [Except.ok.injEq, Prod.mk.injEq] at h
        obtain ⟨hweq, -⟩ := h
        subst hweq
        exact hw
      · next s hlk =>
        split at h
        · simp at h
        · next w2 evs2 hb =>
          simp only [Except.ok.injEq, Prod.mk.injEq] at h
          obtain ⟨hweq, -⟩ := h
          subst hweq
          have hfr := (exec_frame _ _ _ _ _ hb).1
          refine sessionsWF_of_list hfr (nodup_setKey _ hw.1) ?_
          intro e he
          rcases mem_setKey he with he | he
          · exact hw.2 e he
          · subst he
            exact hw.2 (key, s) (lookupA_mem hlk)

theorem sessionsWF_connect {fuel : Nat} {failing : List String} {w : World}
    {u room : String} {w' : World} {evs : List Event}
    (hw : sessionsWF w) (h : connect fuel failing w u room = .ok (w', evs)) :
    sessionsWF w' := by
  simp only [connect] at h
  split at h
  · simp at h
  · next w5 evs5 hb =>
    split at h
    · simp at h
    · next w6 evs6 hs2 =>
      simp only [Except.ok.injEq, Prod.mk.injEq] at h
      obtain ⟨hweq, -⟩ := h
      subst hweq
      have f1 := (exec_frame _ _ _ _ _ hb).1
      have f2 := (exec_frame _ _ _ _ _ hs2).1
      exact sessionsWF_of_eq (f2.trans f1) hw

theorem sessionsWF_disconnect {fuel : Nat} {failing : List String} {w : World}
    {u : String} {w' : World} {evs : List Event}
    (hw : sessionsWF w) (h : disconnect fuel failing w u = .ok (w', evs)) :
    sessionsWF w' :=
  sessionsWF_of_eq (disconnect_preserves_collaboration_sessions h) hw

/-- Every inbound frame processed by the dispatcher preserves the session
invariant: keys stay unique and every session keeps a nonempty participant
set. -/
theorem sessionsWF_processIncoming {fuel : Nat} {failing : List String}
    {w : World} {u room : String} {r : Raw} {w' : World} {evs : List Event}
    (hw : sessionsWF w)
    (h : processIncoming fuel failing w u room r = .ok (w', evs)) :
    sessionsWF w' := by
  cases r with
  | malformed =>
    simp only [processIncoming, Except.ok.injEq, Prod.mk.injEq] at h
    obtain ⟨hweq, -⟩ := h
    subst hweq
    exact hw
  | parsed m =>
    cases m with
    | chatMessage text mtype =>
      simp only [processIncoming, handleWebsocketMessage] at h
      exact sessionsWF_of_eq (sendMessage_sessions_eq h) hw
    | cursorUpdate pos =>
      simp only [processIncoming, handleWebsocketMessage] at h
      exact sessionsWF_of_eq (updateCursorPosition_sessions_eq h) hw
    | documentChange sk =>
      simp only [processIncoming, handleWebsocketMessage] at h
      exact sessionsWF_docChange hw h
    | startCollaboration od =>
      cases od with
      | none =>
        simp only [processIncoming, handleWebsocketMessage,
          Except.ok.injEq, Prod.mk.injEq] at h
        obtain ⟨hweq, -⟩ := h
        subst hweq
        exact hw
      | some doc =>
        simp only [processIncoming, handleWebsocketMessage] at h
        by_cases hd : doc = ""
        · rw [if_pos hd] at h
          simp only [Except.ok.injEq, Prod.mk.injEq] at h
          obtain ⟨hweq, -⟩ := h
          subst hweq
          exact hw
        · rw [if_neg hd] at h
          exact sessionsWF_start hw h
    | endCollaboration od =>
      cases od with
      | none =>
        simp only [processIncoming, handleWebsocketMessage,
          Except.ok.injEq, Prod.mk.injEq] at h
        obtain ⟨hweq, -⟩ := h
        subst hweq
        exact hw
      | some doc =>
        simp only [processIncoming, handleWebsocketMessage] at h
        by_cases hd : doc = ""
        · rw [if_pos hd] at h
          simp only [Except.ok.injEq, Prod.mk.injEq] at h
          obtain ⟨hweq, -⟩ := h
          subst hweq
          exact hw
        · rw [if_neg hd] at h
          exact sessionsWF_end hw h
    | ping =>
      simp only [processIncoming, handleWebsocketMessage, sendPersonal] at h
      exact sessionsWF_of_eq (exec_frame _ _ _ _ _ h).1 hw
    | noType =>
      simp only [processIncoming, handleWebsocketMessage,
        Except.ok.injEq, Prod.mk.injEq] at h
      obtain ⟨hweq, -⟩ := h
      subst hweq
      exact hw
    | unknown t =>
      simp only [processIncoming, handleWebsocketMessage,
        Except.ok.injEq, Prod.mk.injEq] at h
      obtain ⟨hweq, -⟩ := h
      subst hweq
      exact hw

end GeoMinerWS
